import Mathlib

/-!
Shallow embedding of the vSphere simulator's property collector
(`pkg/vsphere/simulator/property_collector.go`): the reflection-based
property resolver (`fieldValue`, `fieldValueInterface`, `fieldRefs`,
`isEmpty`), the recursive retrieval engine (`retrieveResult.collect`,
`collectAll`, `collectFields`), the seeding phase
(`PropertyCollector.collect`) and the two API entry points
(`RetrievePropertiesEx`, `RetrieveProperties`).

Go runtime panics (nil dereference, reflection on non-struct values,
failed type assertions, out-of-range string slicing) are modelled as an
explicit `panic` outcome; the engine's recursion is driven by an explicit
fuel counter, proved sufficient below, so that every definition is
executable.
-/

/-- `types.ManagedObjectReference`: a `(type, value)` pair identifying a
managed object. -/
structure MoRef where
  type : String
  value : String
deriving DecidableEq, Repr

mutual
/-- A reflected Go value as seen by the property collector: scalars,
object references, nil and non-nil pointers, struct records (carrying
their package-path base and type name), the slice kinds the collector
distinguishes (`[]string`, `[]int32`, `[]ManagedObjectReference`) and the
transport wrappers `*types.ArrayOfString`, `*types.ArrayOfInt`,
`*types.ArrayOfManagedObjectReference` produced by `fieldValueInterface`. -/
inductive Val where
  | str (s : String)
  | int (n : Int)
  | boolean (b : Bool)
  | ref (r : MoRef)
  | null
  | ptr (v : Val)
  | record (pkg : String) (typeName : String) (fields : Fields)
  | strList (ss : List String)
  | intList (ns : List Int)
  | refList (rs : List MoRef)
  | arrayOfString (ss : List String)
  | arrayOfInt (ns : List Int)
  | arrayOfRef (rs : List MoRef)

/-- The field list of a reflected Go struct: each field has an
upper-camel-case name, an anonymous (embedded) flag, and a value. -/
inductive Fields where
  | nil
  | cons (name : String) (anonymous : Bool) (v : Val) (rest : Fields)
end

/-- Go `ucFirst`: upper-case the first character (the source panics on an
empty string; that case is handled by the caller). -/
def ucFirst (s : String) : String := s.capitalize

/-- Character-level splitting on `.`, the semantics of Go
`strings.Split(p, ".")`: an empty input yields one empty segment, and
every dot starts a new segment. -/
def splitChars : List Char → List (List Char)
  | [] => [[]]
  | c :: cs =>
    if c = '.' then [] :: splitChars cs
    else
      match splitChars cs with
      | s :: ss => (c :: s) :: ss
      | [] => [[c]]

/-- Go `strings.Split(p, ".")`. -/
def splitDots (s : String) : List String :=
  (splitChars s.data).map (fun l => String.mk l)

/-- Go `lcFirst`: lower-case the first character. -/
def lcFirst (s : String) : String := s.decapitalize

/-- Go `isEmpty`: nil pointers, zero-length strings and zero-length
slices are empty; everything else is not. -/
def isEmpty : Val → Bool
  | .null => true
  | .str s => s.isEmpty
  | .strList l => l.isEmpty
  | .intList l => l.isEmpty
  | .refList l => l.isEmpty
  | _ => false

/-- Go `isTrue` on a `*bool`. -/
def isTrue : Option Bool → Bool
  | some b => b
  | none => false

/-- Go `isFalse` on a `*bool`. -/
def isFalse : Option Bool → Bool
  | some b => !b
  | none => true

/-- Direct (non-promoted) field lookup on a struct's field list, returning
the field's anonymous flag and value. -/
def findDirect (x : String) : Fields → Option (Bool × Val)
  | .nil => none
  | .cons n anon v rest => if n = x then some (anon, v) else findDirect x rest

mutual
/-- Search for a promoted field inside the anonymous (embedded) fields of
a field list, in declaration order. -/
def findEmbF (x : String) : Fields → Option (Bool × Val)
  | .nil => none
  | .cons _ anon v rest =>
    match (if anon then findEmbV x v else none) with
    | some r => some r
    | none => findEmbF x rest

/-- Search for a field named `x` inside one embedded value: only embedded
struct records are searched, direct fields first. -/
def findEmbV (x : String) : Val → Option (Bool × Val)
  | .record _ _ gs =>
    (match findDirect x gs with
     | some r => some r
     | none => findEmbF x gs)
  | _ => none
end

/-- Go `reflect`'s `FieldByName`: direct fields first, then fields
promoted from embedded (anonymous) struct records. -/
def fieldByName (x : String) (fs : Fields) : Option (Bool × Val) :=
  match findDirect x fs with
  | some r => some r
  | none => findEmbF x fs

/-- Go `fieldValueInterface`: a slice value is wrapped into the
`types.ArrayOf*` transport container matching its element type; every
non-slice value passes through unchanged. -/
def fieldValueInterface : Val → Val
  | .strList ss => .arrayOfString ss
  | .intList ns => .arrayOfInt ns
  | .refList rs => .arrayOfRef rs
  | v => v

/-- The error results of `fieldValue`: the sentinel errors
`errMissingField` and `errEmptyField`, plus a Go runtime panic
(reflection on a non-struct value, or `ucFirst` of an empty segment). -/
inductive FErr where
  | missingField
  | emptyField
  | panicErr
deriving DecidableEq, Repr

/-- The segment loop of Go `fieldValue`: for each path segment, find the
(possibly promoted) field; a segment that is not found is a missing
field, an empty value stops with the empty-field error, and the final
segment's value is converted by `fieldValueInterface`. -/
def fieldValueLoop : Val → List String → Except FErr Val
  | _, [] => .ok .null
  | rval, name :: rest =>
    if name.isEmpty then .error .panicErr
    else
      match rval with
      | .record _ _ fs =>
        match fieldByName (ucFirst name) fs with
        | none => .error .missingField
        | some (_, val) =>
          if isEmpty val then .error .emptyField
          else
            match rest with
            | [] => .ok (fieldValueInterface val)
            | _ :: _ => fieldValueLoop val rest
      | _ => .error .panicErr

/-- Go `fieldValue`: dereference a pointer receiver once, split the path
on dots, and run the segment loop. -/
def fieldValue (v : Val) (p : String) : Except FErr Val :=
  fieldValueLoop
    (match v with
     | .ptr w => w
     | w => w)
    (splitDots p)

/-- Go `fieldRefs`: extract the references carried by a resolved value —
a bare reference, a non-nil pointer to a reference, or an
`ArrayOfManagedObjectReference` wrapper; anything else yields none. -/
def fieldRefs : Val → List MoRef
  | .ref r => [r]
  | .ptr (.ref r) => [r]
  | .arrayOfRef rs => rs
  | _ => []

/-- `types.DynamicProperty`: one `(name, value)` pair of a property set. -/
structure DynamicProperty where
  name : String
  val : Val

/-- The fault recorded for a missing property
(`types.InvalidProperty{Name: path}`). -/
inductive PropFault where
  | invalidProperty (name : String)

/-- `types.MissingProperty`: a requested-but-unresolvable path together
with its fault. -/
structure MissingProperty where
  path : String
  fault : PropFault

/-- `types.ObjectContent`: the per-object output of a retrieval. -/
structure ObjectContent where
  obj : MoRef
  propSet : List DynamicProperty
  missingSet : List MissingProperty

/-- `types.RetrieveResult` (the simulator never sets a continuation
token, so only the object list is modelled). -/
structure RetrieveResult where
  objects : List ObjectContent

/-- `types.PropertySpec`: target type, wildcard flag (`*bool` in Go) and
explicit path list. -/
structure PropertySpec where
  type : String
  all : Option Bool
  pathSet : List String

/-- `types.BaseSelectionSpec`: either a `*types.TraversalSpec` (only the
`Path` and the presence and contents of the nested `SelectSet` are read
by the simulator) or a plain `*types.SelectionSpec` carrying just a
name. -/
inductive SelectionSpec where
  | traversalSpec (path : String) (selectSet : Option (List SelectionSpec))
  | selectionSpec (name : String)

/-- `types.ObjectSpec`: root reference, skip flag (`*bool`) and the
selection-spec list, whose Go `nil` slice is `none` here. -/
structure ObjectSpec where
  obj : MoRef
  skip : Option Bool
  selectSet : Option (List SelectionSpec)

/-- `types.PropertyFilterSpec`. -/
structure PropertyFilterSpec where
  propSet : List PropertySpec
  objectSet : List ObjectSpec
  reportMissingObjectsInResults : Option Bool

/-- `types.RetrievePropertiesEx` request (the simulator ignores
`Options`). -/
structure RetrievePropertiesExRequest where
  thisRef : MoRef
  specSet : List PropertyFilterSpec

/-- `types.RetrieveProperties` (legacy) request. -/
structure RetrievePropertiesRequest where
  thisRef : MoRef
  specSet : List PropertyFilterSpec

/-- The registry interface the collector relies on. Modelled from the
spec: the Registry implementation (`NewRegistry`/`Get` of the simulator
package) is not among the given sources, and §4.1 specifies
`get(reference) -> object | absent`; an association list (first binding
wins) realises that contract. -/
abbrev Registry := List (MoRef × Val)

/-- Registry lookup, Go `Map.Get(ref)`: the first binding for `ref`, or
absent. -/
def regGet : Registry → MoRef → Option Val
  | [], _ => none
  | (k, v) :: rest, ref => if k = ref then some v else regGet rest ref

mutual
/-- Go `retrieveResult.collectAll` over a field list: skip empty fields,
expand embedded (anonymous) records in place, and emit one
lower-camel-cased property per plain field; a Go panic (iterating a
non-struct embedded value) is the error case. -/
def collectAllF : Fields → Except Unit (List DynamicProperty)
  | .nil => .ok []
  | .cons name anon v rest =>
    if isEmpty v then collectAllF rest
    else if anon then
      match collectAllV v with
      | .error e => .error e
      | .ok a =>
        match collectAllF rest with
        | .error e => .error e
        | .ok b => .ok (a ++ b)
    else
      match collectAllF rest with
      | .error e => .error e
      | .ok b => .ok (⟨lcFirst name, fieldValueInterface v⟩ :: b)

/-- Recursing into one embedded value: Go reflection panics unless it is
a struct record. -/
def collectAllV : Val → Except Unit (List DynamicProperty)
  | .record _ _ gs => collectAllF gs
  | _ => .error ()
end

/-- Go `retrieveResult.collectFields`: resolve each path against the
object; a success appends a property (and, when the path is marked
recursive, contributes the value's references), an empty field is
skipped, a missing field appends a missing-property entry with an
`InvalidProperty` fault, and a reflection panic aborts. -/
def collectFields (recurse : List String) (rval : Val) :
    List String → ObjectContent → Except Unit (List MoRef × ObjectContent)
  | [], c => .ok ([], c)
  | name :: rest, c =>
    match fieldValue rval name with
    | .ok val =>
      match collectFields recurse rval rest
          { c with propSet := c.propSet ++ [⟨name, val⟩] } with
      | .error e => .error e
      | .ok (rs, c') =>
        .ok ((if name ∈ recurse then fieldRefs val else []) ++ rs, c')
    | .error .emptyField => collectFields recurse rval rest c
    | .error .missingField =>
      collectFields recurse rval rest
        { c with missingSet := c.missingSet ++ [⟨name, .invalidProperty name⟩] }
    | .error .panicErr => .error ()

/-- The type test guarding each property spec in
`retrieveResult.collect`: the spec applies when its target type equals
the reference's type, or when the object's schema has an embedded
(anonymous) field of that name (`rtype.FieldByName(p.Type)` with
`field.Anonymous`). -/
def specTypeMatches (refType : String) (fs : Fields) (t : String) : Bool :=
  t = refType ||
    (match fieldByName t fs with
     | some (anon, _) => anon
     | none => false)

/-- Processing of one property spec against one visited object (the body
of the `PropSet` loop of `retrieveResult.collect`): a type mismatch skips
the spec, the wildcard flag triggers `collectAll` (contributing no
references), and otherwise the explicit paths run through
`collectFields`. A non-record value makes the reflection type lookup
panic unless the type strings already match. -/
def applyPropSpec (refType : String) (rval : Val) (recurse : List String)
    (p : PropertySpec) (c : ObjectContent) : Except Unit (List MoRef × ObjectContent) :=
  match (if p.type = refType then Except.ok true
         else match rval with
              | .record _ _ fs => Except.ok (specTypeMatches refType fs p.type)
              | _ => (Except.error () : Except Unit Bool)) with
  | .error _ => .error ()
  | .ok false => .ok ([], c)
  | .ok true =>
    if isTrue p.all then
      match collectAllV rval with
      | .error e => .error e
      | .ok props => .ok ([], { c with propSet := c.propSet ++ props })
    else
      collectFields recurse rval p.pathSet c

/-- The `PropSet` loop of `retrieveResult.collect` for one filter spec. -/
def applyPropSpecs (refType : String) (rval : Val) (recurse : List String) :
    List PropertySpec → ObjectContent → Except Unit (List MoRef × ObjectContent)
  | [], c => .ok ([], c)
  | p :: ps, c =>
    match applyPropSpec refType rval recurse p c with
    | .error e => .error e
    | .ok (rs, c') =>
      match applyPropSpecs refType rval recurse ps c' with
      | .error e => .error e
      | .ok (rs', c'') => .ok (rs ++ rs', c'')

/-- The `SpecSet` loop of `retrieveResult.collect`: the visit phase reads
only each filter spec's `PropSet`, so it is passed the projected
property-spec lists. -/
def applySpecs (refType : String) (rval : Val) (recurse : List String) :
    List (List PropertySpec) → ObjectContent → Except Unit (List MoRef × ObjectContent)
  | [], c => .ok ([], c)
  | ps :: rest, c =>
    match applyPropSpecs refType rval recurse ps c with
    | .error e => .error e
    | .ok (rs, c') =>
      match applySpecs refType rval recurse rest c' with
      | .error e => .error e
      | .ok (rs', c'') => .ok (rs ++ rs', c'')

/-- The per-object body of `retrieveResult.collect`: dereference the
registry object (a Go panic unless it is a non-nil pointer), unwrap a
non-`mo`-package wrapper to its first field, and run every filter spec's
property specs, producing the object's content and the references to
traverse further. -/
def visitObject (propSets : List (List PropertySpec)) (recurse : List String)
    (ref : MoRef) (obj : Val) : Except Unit (ObjectContent × List MoRef) :=
  match obj with
  | .ptr rval =>
    match (match rval with
           | .record pkg _ fs =>
             if pkg = "mo" then Except.ok rval
             else
               match fs with
               | .cons _ _ v0 _ => Except.ok v0
               | .nil => Except.error ()
           | _ => (Except.error () : Except Unit Val)) with
    | .error _ => .error ()
    | .ok rval' =>
      match applySpecs ref.type rval' recurse propSets ⟨ref, [], []⟩ with
      | .error e => .error e
      | .ok (refs, content) => .ok (content, refs)
  | _ => .error ()

/-- The mutable state of a `retrieveResult` during the visit phase: the
accumulated object contents and the collected set. -/
structure CollectState where
  objects : List ObjectContent
  collected : List MoRef

/-- Go `retrieveResult.collect`, rewritten as a fuel-indexed worklist
loop with the same visit order as the source's depth-first recursion
(a visited object's discovered references are processed before its
pending siblings): an already-collected reference is discarded, an
absent reference is dereferenced by the source without a registry check
and panics, and a present object is visited, emitted, marked collected
and its references prepended to the worklist. `none` means the fuel ran
out; the fuel bound below is proved sufficient. -/
def collectLoop (reg : Registry) (propSets : List (List PropertySpec))
    (recurse : List String) :
    Nat → CollectState → List MoRef → Option (Except Unit CollectState)
  | _, st, [] => some (.ok st)
  | 0, _, _ :: _ => none
  | fuel + 1, st, ref :: rest =>
    if ref ∈ st.collected then
      collectLoop reg propSets recurse fuel st rest
    else
      match regGet reg ref with
      | none => some (.error ())
      | some obj =>
        match visitObject propSets recurse ref obj with
        | .error _ => some (.error ())
        | .ok (content, refs) =>
          collectLoop reg propSets recurse fuel
            ⟨st.objects ++ [content], ref :: st.collected⟩ (refs ++ rest)

/-- The number of references a single visit of a registry entry can
contribute to the worklist. -/
def visitRefCount (propSets : List (List PropertySpec)) (recurse : List String)
    (kv : MoRef × Val) : Nat :=
  match visitObject propSets recurse kv.1 kv.2 with
  | .ok (_, refs) => refs.length
  | .error _ => 0

/-- An upper bound over the whole registry for `visitRefCount`. -/
def stepBound (reg : Registry) (propSets : List (List PropertySpec))
    (recurse : List String) : Nat :=
  (reg.map (visitRefCount propSets recurse)).foldr Nat.max 0

/-- The number of distinct registry keys not yet collected. -/
def uncollected (reg : Registry) (collected : List MoRef) : Nat :=
  ((reg.map Prod.fst).dedup.filter (fun k => !decide (k ∈ collected))).length

/-- The fuel budget for a worklist: enough for every pending pop plus,
for every registry object that may still be newly collected, its visit
and the pops of all references it can push. -/
def fuelFor (reg : Registry) (propSets : List (List PropertySpec))
    (recurse : List String) (collected : List MoRef) (wl : List MoRef) : Nat :=
  wl.length + uncollected reg collected * (1 + stepBound reg propSets recurse)

/-- The top-level outcomes of a simulator call: a Go runtime panic, a
returned `BaseMethodFault`, a returned result, or fuel exhaustion of the
embedded loop (proved unreachable below). -/
inductive Outcome where
  | panic
  | fault (f : MoRef)
  | result (r : RetrieveResult)
  | fuelOut

/-- The accumulator of the seeding phase of `PropertyCollector.collect`:
the seeded references and the set of paths marked recursive. -/
structure Seeded where
  refs : List MoRef
  recurse : List String

/-- The root-seeding line of `PropertyCollector.collect`: the root
reference is appended when the object spec's select set is Go-`nil` or
its skip flag is unset or false. -/
def seedRoot (o : ObjectSpec) (acc : Seeded) : Seeded :=
  if o.selectSet.isNone || isFalse o.skip then
    { acc with refs := acc.refs ++ [o.obj] }
  else acc

/-- The `SelectSet` loop of `PropertyCollector.collect`: each entry is
type-asserted to a `*TraversalSpec` (a Go panic on any other kind), a
non-nil nested select set marks the path recursive, and the path's
resolved references are appended (resolution errors are ignored, but a
resolution panic aborts). -/
def seedSelectSets (obj : Val) : List SelectionSpec → Seeded → Except Unit Seeded
  | [], acc => .ok acc
  | ss :: rest, acc =>
    match ss with
    | .selectionSpec _ => .error ()
    | .traversalSpec path sel =>
      let acc₁ := if sel.isSome then { acc with recurse := path :: acc.recurse } else acc
      match fieldValue obj path with
      | .ok v => seedSelectSets obj rest { acc₁ with refs := acc₁.refs ++ fieldRefs v }
      | .error .panicErr => .error ()
      | .error _ => seedSelectSets obj rest acc₁

/-- The `ObjectSet` loop of `PropertyCollector.collect`: an absent root
returns a `ManagedObjectNotFound` fault unless missing-object reporting
is enabled, in which case the object spec is skipped entirely; a present
root is seeded per `seedRoot` and its select set processed. -/
def seedObjects (reg : Registry) (flag : Option Bool) :
    List ObjectSpec → Seeded → Except Unit (Sum MoRef Seeded)
  | [], acc => .ok (.inr acc)
  | o :: rest, acc =>
    match regGet reg o.obj with
    | none =>
      if isFalse flag then .ok (.inl o.obj)
      else seedObjects reg flag rest acc
    | some obj =>
      match seedSelectSets obj (o.selectSet.getD []) (seedRoot o acc) with
      | .error e => .error e
      | .ok acc' => seedObjects reg flag rest acc'

/-- The `SpecSet` loop of `PropertyCollector.collect`. -/
def seedSpecs (reg : Registry) :
    List PropertyFilterSpec → Seeded → Except Unit (Sum MoRef Seeded)
  | [], acc => .ok (.inr acc)
  | spec :: rest, acc =>
    match seedObjects reg spec.reportMissingObjectsInResults spec.objectSet acc with
    | .error e => .error e
    | .ok (.inl f) => .ok (.inl f)
    | .ok (.inr acc') => seedSpecs reg rest acc'

/-- Go `PropertyCollector.collect`: seed the worklist and the recursive
path set from every filter spec, then run the visit loop from an empty
state; the fault case carries the absent root's reference
(`ManagedObjectNotFound{Obj: ref}`). -/
def pcCollect (reg : Registry) (r : RetrievePropertiesExRequest) : Outcome :=
  match seedSpecs reg r.specSet ⟨[], []⟩ with
  | .error _ => .panic
  | .ok (.inl f) => .fault f
  | .ok (.inr acc) =>
    match collectLoop reg (r.specSet.map PropertyFilterSpec.propSet) acc.recurse
        (fuelFor reg (r.specSet.map PropertyFilterSpec.propSet) acc.recurse [] acc.refs)
        ⟨[], []⟩ acc.refs with
    | none => .fuelOut
    | some (.error _) => .panic
    | some (.ok st) => .result ⟨st.objects⟩

/-- Go `PropertyCollector.RetrievePropertiesEx`: wraps `pcCollect`'s
fault or result into the response body (modelled directly by
`Outcome`). -/
def RetrievePropertiesEx (reg : Registry) (r : RetrievePropertiesExRequest) : Outcome :=
  pcCollect reg r

/-- The legacy response shape: a fault, or the bare object-content
list. -/
inductive LegacyOutcome where
  | panic
  | fault (f : MoRef)
  | result (objects : List ObjectContent)
  | fuelOut

/-- Go `PropertyCollector.RetrieveProperties`: build the current-version
request from `This` and `SpecSet`, call `RetrievePropertiesEx`, and
strip the result down to its `Objects` list, passing any fault
through. -/
def RetrieveProperties (reg : Registry) (r : RetrievePropertiesRequest) : LegacyOutcome :=
  match RetrievePropertiesEx reg ⟨r.thisRef, r.specSet⟩ with
  | .panic => .panic
  | .fault f => .fault f
  | .result res => .result res.objects
  | .fuelOut => .fuelOut

/-- Go reflect's `Kind() == reflect.Slice` test on the modelled values. -/
def isSlice : Val → Bool
  | .strList _ => true
  | .intList _ => true
  | .refList _ => true
  | _ => false

/-- A sample folder reference. -/
def rA : MoRef := ⟨"Folder", "A"⟩

/-- A sample folder reference. -/
def rB : MoRef := ⟨"Folder", "B"⟩

/-- A sample folder reference. -/
def rC : MoRef := ⟨"Folder", "C"⟩

/-- A registry entry shaped like the simulator's `mo.Folder`: a pointer
to an `mo`-package record with a `Self` reference and a `ChildEntity`
reference slice. -/
def folderObj (self : MoRef) (children : List MoRef) : Val :=
  .ptr (.record "mo" "Folder"
    (.cons "Self" false (.ref self)
      (.cons "ChildEntity" false (.refList children) .nil)))

/-- A cyclic registry: `A → [B, C]`, `B → [A]`, `C → []`. -/
def cycReg : Registry :=
  [(rA, folderObj rA [rB, rC]), (rB, folderObj rB [rA]), (rC, folderObj rC [])]

/-- A request seeding `A` with a recursive traversal over `childEntity`
and retrieving the `self` property. -/
def cycReq : RetrievePropertiesExRequest :=
  ⟨⟨"PropertyCollector", "pc"⟩,
   [{ propSet := [{ type := "Folder", all := none, pathSet := ["self"] }],
      objectSet := [{ obj := rA, skip := none,
                      selectSet := some [.traversalSpec "childEntity"
                        (some [.traversalSpec "childEntity" none])] }],
      reportMissingObjectsInResults := none }]⟩

/-- The retrieval result of `cycReq` against `cycReg`: each of the three
folders exactly once. -/
def cycRes : RetrieveResult :=
  ⟨[⟨rA, [⟨"self", .ref rA⟩], []⟩,
    ⟨rB, [⟨"self", .ref rB⟩], []⟩,
    ⟨rC, [⟨"self", .ref rC⟩], []⟩]⟩

/-- A folder record whose `Name` is present but empty. -/
def emptyNameFolder : Val :=
  .record "mo" "Folder" (.cons "Name" false (.str "") .nil)

/-- A registry holding only `A`, with `A`'s child list pointing at the
absent `B`. -/
def danglingReg : Registry := [(rA, folderObj rA [rB])]

/-- A request against `danglingReg` that discovers the absent `B`
through a (non-recursive) traversal of `childEntity`, with
missing-object reporting enabled. -/
def danglingReq : RetrievePropertiesExRequest :=
  ⟨⟨"PropertyCollector", "pc"⟩,
   [{ propSet := [],
      objectSet := [{ obj := rA, skip := none,
                      selectSet := some [.traversalSpec "childEntity" none] }],
      reportMissingObjectsInResults := some true }]⟩

/-- A registry holding only the childless folder `A`. -/
def soloReg : Registry := [(rA, folderObj rA [])]

/-- A request whose only object spec has `skip = true` but a Go-`nil`
select set. -/
def skipNilSelectReq : RetrievePropertiesExRequest :=
  ⟨⟨"PropertyCollector", "pc"⟩,
   [{ propSet := [],
      objectSet := [{ obj := rA, skip := some true, selectSet := none }],
      reportMissingObjectsInResults := none }]⟩

/-- A request whose only object spec carries a plain `SelectionSpec`
entry (not a `TraversalSpec`) in its select set. -/
def plainSelectReq : RetrievePropertiesExRequest :=
  ⟨⟨"PropertyCollector", "pc"⟩,
   [{ propSet := [],
      objectSet := [{ obj := rA, skip := none,
                      selectSet := some [.selectionSpec "visitFolders"] }],
      reportMissingObjectsInResults := none }]⟩

/-- A legacy request used to exercise the `RetrieveProperties` adapter. -/
def legacyReq : RetrievePropertiesRequest := ⟨⟨"PropertyCollector", "pc"⟩, cycReq.specSet⟩

/-- A folder schema embedding a `ManagedEntity` base record carrying a
name. -/
def embFields : Fields :=
  .cons "ManagedEntity" true
    (.record "mo" "ManagedEntity" (.cons "Name" false (.str "n") .nil)) .nil

/-- A property spec targeting a type unrelated to `Folder`. -/
def netSpec : PropertySpec := ⟨"Network", none, ["self"]⟩

/-- A property spec targeting the embedded `ManagedEntity` base type. -/
def meSpec : PropertySpec := ⟨"ManagedEntity", none, ["name"]⟩

/-- A folder record whose `ChildEntity` slice holds one reference. -/
def childFolder : Val :=
  .record "mo" "Folder" (.cons "ChildEntity" false (.refList [rB]) .nil)

/-- C8: a successfully resolved slice value is wrapped into the typed
`ArrayOf` container matching its element type (`ArrayOfString`,
`ArrayOfInt`, `ArrayOfManagedObjectReference`), while every non-slice
value — scalars and single object references included — passes through
`fieldValueInterface` unchanged. -/
theorem c8_array_wrapping :
    (∀ ss, fieldValueInterface (Val.strList ss) = Val.arrayOfString ss) ∧
    (∀ ns, fieldValueInterface (Val.intList ns) = Val.arrayOfInt ns) ∧
    (∀ rs, fieldValueInterface (Val.refList rs) = Val.arrayOfRef rs) ∧
    (∀ v, isSlice v = false → fieldValueInterface v = v) := by
  refine ⟨fun _ => rfl, fun _ => rfl, fun _ => rfl, fun v h => ?_⟩
  cases v <;> simp_all [isSlice, fieldValueInterface]

/-- Witness for C8 at concrete scalar and reference values. -/
theorem c8_array_wrapping_witness :
    isSlice (Val.ref rA) = false ∧ fieldValueInterface (Val.ref rA) = Val.ref rA ∧
    isSlice (Val.str "x") = false ∧ fieldValueInterface (Val.str "x") = Val.str "x" :=
  ⟨rfl, c8_array_wrapping.2.2.2 (Val.ref rA) rfl, rfl,
    c8_array_wrapping.2.2.2 (Val.str "x") rfl⟩

/-- C2: during explicit-path collection, a path whose resolution reports
a missing field adds exactly one `missingSet` entry — the path together
with an `InvalidProperty` fault naming it — and no `propSet` entry,
while a path whose resolution reports an empty field adds neither; in
both cases collection simply continues with the remaining paths. -/
theorem c2_missing_vs_empty (recurse : List String) (rval : Val) (name : String)
    (rest : List String) (c : ObjectContent) :
    (fieldValue rval name = .error .missingField →
       collectFields recurse rval (name :: rest) c =
         collectFields recurse rval rest
           { c with missingSet := c.missingSet ++ [⟨name, .invalidProperty name⟩] }) ∧
    (fieldValue rval name = .error .emptyField →
       collectFields recurse rval (name :: rest) c = collectFields recurse rval rest c) := by
  constructor <;> intro h <;> simp [collectFields, h]

/-- Witness for C2: on a folder whose `Name` is empty, the path `bogus`
yields exactly one missing-property entry and the path `name` yields
nothing, and collection of the two-path list proceeds through both. -/
theorem c2_missing_vs_empty_witness :
    fieldValue emptyNameFolder "bogus" = .error .missingField ∧
    fieldValue emptyNameFolder "name" = .error .emptyField ∧
    collectFields [] emptyNameFolder ["bogus", "name"] ⟨rA, [], []⟩ =
      .ok ([], ⟨rA, [], [⟨"bogus", .invalidProperty "bogus"⟩]⟩) := by
  refine ⟨rfl, rfl, ?_⟩
  have h1 := (c2_missing_vs_empty [] emptyNameFolder "bogus" ["name"] ⟨rA, [], []⟩).1 rfl
  have h2 := (c2_missing_vs_empty [] emptyNameFolder "name" []
      ⟨rA, [], [⟨"bogus", .invalidProperty "bogus"⟩]⟩).2 rfl
  exact h1.trans (h2.trans rfl)

/-- C5: a property spec is applied to a visited object exactly when its
target type equals the object's reference type or names an embedded
(anonymous) base-type field of the object's schema; on a mismatch the
spec is skipped for that object — no content change, no references, no
error — and on a match the spec's wildcard or explicit paths are
extracted. -/
theorem c5_type_matching (refType pkg ty : String) (fs : Fields)
    (recurse : List String) (p : PropertySpec) (c : ObjectContent) :
    (specTypeMatches refType fs p.type = false →
       applyPropSpec refType (.record pkg ty fs) recurse p c = .ok ([], c)) ∧
    (specTypeMatches refType fs p.type = true → isTrue p.all = false →
       applyPropSpec refType (.record pkg ty fs) recurse p c =
         collectFields recurse (.record pkg ty fs) p.pathSet c) ∧
    (specTypeMatches refType fs p.type = true → isTrue p.all = true →
       applyPropSpec refType (.record pkg ty fs) recurse p c =
         (match collectAllF fs with
          | .error e => .error e
          | .ok props => .ok ([], { c with propSet := c.propSet ++ props }))) ∧
    (specTypeMatches refType fs p.type = true ↔
       p.type = refType ∨ ∃ v, fieldByName p.type fs = some (true, v)) := by
  refine ⟨?_, ?_, ?_, ?_⟩
  · intro hm
    by_cases hr : p.type = refType
    · simp [specTypeMatches, hr] at hm
    · simp [applyPropSpec, hr, hm]
  · intro hm ha
    by_cases hr : p.type = refType <;> simp [applyPropSpec, hr, hm, ha, collectAllV]
  · intro hm ha
    by_cases hr : p.type = refType <;> simp [applyPropSpec, hr, hm, ha, collectAllV]
  · unfold specTypeMatches
    by_cases hr : p.type = refType
    · simp [hr]
    · cases h : fieldByName p.type fs with
      | none => simp [hr, h]
      | some r =>
        cases r with
        | mk anon v => cases anon <;> simp [hr, h]

/-- Witness for C5: against a folder embedding `ManagedEntity`, a spec
targeting `Network` is skipped without any content change, while a spec
targeting the embedded `ManagedEntity` base type extracts its `name`. -/
theorem c5_type_matching_witness :
    specTypeMatches "Folder" embFields "Network" = false ∧
    applyPropSpec "Folder" (.record "mo" "Folder" embFields) [] netSpec ⟨rA, [], []⟩ =
      .ok ([], ⟨rA, [], []⟩) ∧
    specTypeMatches "Folder" embFields "ManagedEntity" = true ∧
    applyPropSpec "Folder" (.record "mo" "Folder" embFields) [] meSpec ⟨rA, [], []⟩ =
      .ok ([], ⟨rA, [⟨"name", .str "n"⟩], []⟩) := by
  refine ⟨rfl, ?_, rfl, ?_⟩
  · exact (c5_type_matching "Folder" "mo" "Folder" embFields [] netSpec ⟨rA, [], []⟩).1 rfl
  · exact ((c5_type_matching "Folder" "mo" "Folder" embFields [] meSpec ⟨rA, [], []⟩).2.1
      rfl rfl).trans rfl

/-- C6: a successfully resolved explicit path contributes its value's
references to the frontier exactly when it was marked recursive — an
unmarked path changes only the property set, even when its value is a
reference or a sequence of references — and a path enters the recursive
set only through a traversal spec that carries a nested (non-nil)
selection set. -/
theorem c6_only_recursive_paths_expand
    (recurse : List String) (rval : Val) (name : String) (rest : List String)
    (c : ObjectContent) (val : Val) :
    (fieldValue rval name = .ok val → name ∉ recurse →
       collectFields recurse rval (name :: rest) c =
         collectFields recurse rval rest
           { c with propSet := c.propSet ++ [⟨name, val⟩] }) ∧
    (fieldValue rval name = .ok val → name ∈ recurse →
       ∀ rs c', collectFields recurse rval rest
           { c with propSet := c.propSet ++ [⟨name, val⟩] } = .ok (rs, c') →
         collectFields recurse rval (name :: rest) c = .ok (fieldRefs val ++ rs, c')) ∧
    (∀ (obj : Val) (l : List SelectionSpec) (acc acc' : Seeded),
       seedSelectSets obj l acc = .ok acc' →
       ∀ x, x ∈ acc'.recurse →
         x ∈ acc.recurse ∨ ∃ sel, SelectionSpec.traversalSpec x (some sel) ∈ l) := by
  refine ⟨?_, ?_, ?_⟩
  · intro h hmem
    simp only [collectFields, h, if_neg hmem]
    cases hx : collectFields recurse rval rest
        { c with propSet := c.propSet ++ [⟨name, val⟩] } with
    | error e => simp
    | ok p => cases p with | mk rs c' => simp
  · intro h hmem rs c' hx
    simp [collectFields, h, if_pos hmem, hx]
  · intro obj l
    induction l with
    | nil =>
      intro acc acc' h x hx
      simp only [seedSelectSets] at h
      cases h
      exact Or.inl hx
    | cons ss rest ih =>
      intro acc acc' h x hx
      cases ss with
      | selectionSpec n => simp [seedSelectSets] at h
      | traversalSpec path sel =>
        simp only [seedSelectSets] at h
        cases sel with
        | none =>
          simp only [Option.isSome_none, Bool.false_eq_true, if_false] at h
          cases hf : fieldValue obj path with
          | ok v =>
            rw [hf] at h
            rcases ih _ _ h x hx with h1 | ⟨s, hs⟩
            · exact Or.inl h1
            · exact Or.inr ⟨s, List.mem_cons_of_mem _ hs⟩
          | error e =>
            rw [hf] at h
            cases e with
            | panicErr => exact absurd h (by simp)
            | missingField =>
              rcases ih _ _ h x hx with h1 | ⟨s, hs⟩
              · exact Or.inl h1
              · exact Or.inr ⟨s, List.mem_cons_of_mem _ hs⟩
            | emptyField =>
              rcases ih _ _ h x hx with h1 | ⟨s, hs⟩
              · exact Or.inl h1
              · exact Or.inr ⟨s, List.mem_cons_of_mem _ hs⟩
        | some s =>
          simp only [Option.isSome_some, if_true] at h
          cases hf : fieldValue obj path with
          | ok v =>
            rw [hf] at h
            rcases ih _ _ h x hx with h1 | ⟨s', hs⟩
            · rcases List.mem_cons.mp h1 with h2 | h2
              · exact Or.inr ⟨s, by rw [h2]; exact List.mem_cons_self _ _⟩
              · exact Or.inl h2
            · exact Or.inr ⟨s', List.mem_cons_of_mem _ hs⟩
          | error e =>
            rw [hf] at h
            cases e with
            | panicErr => exact absurd h (by simp)
            | missingField =>
              rcases ih _ _ h x hx with h1 | ⟨s', hs⟩
              · rcases List.mem_cons.mp h1 with h2 | h2
                · exact Or.inr ⟨s, by rw [h2]; exact List.mem_cons_self _ _⟩
                · exact Or.inl h2
              · exact Or.inr ⟨s', List.mem_cons_of_mem _ hs⟩
            | emptyField =>
              rcases ih _ _ h x hx with h1 | ⟨s', hs⟩
              · rcases List.mem_cons.mp h1 with h2 | h2
                · exact Or.inr ⟨s, by rw [h2]; exact List.mem_cons_self _ _⟩
                · exact Or.inl h2
              · exact Or.inr ⟨s', List.mem_cons_of_mem _ hs⟩

/-- Witness for C6: the reference-valued path `childEntity` contributes
no frontier references when unmarked, and exactly its references when
marked recursive. -/
theorem c6_only_recursive_paths_expand_witness :
    fieldValue childFolder "childEntity" = .ok (.arrayOfRef [rB]) ∧
    collectFields [] childFolder ["childEntity"] ⟨rA, [], []⟩ =
      .ok ([], ⟨rA, [⟨"childEntity", .arrayOfRef [rB]⟩], []⟩) ∧
    collectFields ["childEntity"] childFolder ["childEntity"] ⟨rA, [], []⟩ =
      .ok ([rB], ⟨rA, [⟨"childEntity", .arrayOfRef [rB]⟩], []⟩) := by
  refine ⟨rfl, ?_, ?_⟩
  · exact ((c6_only_recursive_paths_expand [] childFolder "childEntity" []
      ⟨rA, [], []⟩ (.arrayOfRef [rB])).1 rfl (by simp)).trans rfl
  · exact (c6_only_recursive_paths_expand ["childEntity"] childFolder "childEntity" []
      ⟨rA, [], []⟩ (.arrayOfRef [rB])).2.1 rfl (by simp) []
      ⟨rA, [⟨"childEntity", .arrayOfRef [rB]⟩], []⟩ rfl

/-- C3: when the first object spec of a request's single filter spec
names a root absent from the registry, `RetrievePropertiesEx` returns a
`ManagedObjectNotFound` fault carrying that reference (and no result)
if the spec's report-missing flag is unset or false, and silently skips
the object spec — behaving exactly as if it were not in the request —
if the flag is set. -/
theorem c3_absent_root (reg : Registry) (thisRef : MoRef) (ps : List PropertySpec)
    (o : ObjectSpec) (os : List ObjectSpec) (flag : Option Bool)
    (h : regGet reg o.obj = none) :
    (isFalse flag = true →
       RetrievePropertiesEx reg ⟨thisRef, [⟨ps, o :: os, flag⟩]⟩ = .fault o.obj) ∧
    (flag = some true →
       RetrievePropertiesEx reg ⟨thisRef, [⟨ps, o :: os, flag⟩]⟩ =
         RetrievePropertiesEx reg ⟨thisRef, [⟨ps, os, flag⟩]⟩) := by
  constructor
  · intro hf
    simp [RetrievePropertiesEx, pcCollect, seedSpecs, seedObjects, h, hf]
  · intro hf
    subst hf
    simp only [RetrievePropertiesEx, pcCollect, seedSpecs, seedObjects, h]
    rw [show isFalse (some true) = false from rfl]
    simp

/-- Witness for C3: against a registry holding only `A`, a request
rooted at the absent `B` faults with `B`'s reference when the flag is
unset, and with the flag set behaves exactly like the same request
without the `B` object spec, which succeeds. -/
theorem c3_absent_root_witness :
    regGet soloReg rB = none ∧
    RetrievePropertiesEx soloReg
      ⟨⟨"PropertyCollector", "pc"⟩, [⟨[], [⟨rB, none, none⟩], none⟩]⟩ = .fault rB ∧
    RetrievePropertiesEx soloReg
      ⟨⟨"PropertyCollector", "pc"⟩,
        [⟨[], [⟨rB, none, none⟩, ⟨rA, none, none⟩], some true⟩]⟩ =
      RetrievePropertiesEx soloReg
        ⟨⟨"PropertyCollector", "pc"⟩, [⟨[], [⟨rA, none, none⟩], some true⟩]⟩ ∧
    RetrievePropertiesEx soloReg
      ⟨⟨"PropertyCollector", "pc"⟩, [⟨[], [⟨rA, none, none⟩], some true⟩]⟩ =
      .result ⟨[⟨rA, [], []⟩]⟩ := by
  refine ⟨rfl, ?_, ?_, rfl⟩
  · exact (c3_absent_root soloReg ⟨"PropertyCollector", "pc"⟩ []
      ⟨rB, none, none⟩ [] none rfl).1 rfl
  · exact (c3_absent_root soloReg ⟨"PropertyCollector", "pc"⟩ []
      ⟨rB, none, none⟩ [⟨rA, none, none⟩] (some true) rfl).2 rfl

/-- C7 counterexample: an object spec with `skip = true` but a Go-`nil`
select set still has its root seeded — the retrieval emits content for
it — whereas the claim predicts no content for the root. -/
theorem c7_counterexample :
    RetrievePropertiesEx soloReg skipNilSelectReq = .result ⟨[⟨rA, [], []⟩]⟩ ∧
    RetrievePropertiesEx soloReg skipNilSelectReq ≠ .result ⟨[]⟩ := by
  refine ⟨rfl, ?_⟩
  intro hcontra
  rw [show RetrievePropertiesEx soloReg skipNilSelectReq =
    .result ⟨[⟨rA, [], []⟩]⟩ from rfl] at hcontra
  simp at hcontra

/-- C7 (amended): the seeding step adds the root reference exactly when
the object spec's select set is Go-`nil` or its skip flag is unset or
false; in particular a `skip = true` spec is suppressed only when it
also carries a non-nil select set, and seeding never touches the
recursive-path set. -/
theorem c7_amended_root_seeding (o : ObjectSpec) (acc : Seeded) :
    ((seedRoot o acc).refs = acc.refs ++ [o.obj] ↔
       (o.selectSet = none ∨ isFalse o.skip = true)) ∧
    ((seedRoot o acc).refs = acc.refs ↔
       ¬(o.selectSet = none ∨ isFalse o.skip = true)) ∧
    (seedRoot o acc).recurse = acc.recurse := by
  have hne : acc.refs ++ [o.obj] ≠ acc.refs := by
    intro h
    have := congrArg List.length h
    simp at this
  by_cases hp : o.selectSet = none ∨ isFalse o.skip = true
  · have hb : (o.selectSet.isNone || isFalse o.skip) = true := by
      rcases hp with h | h <;> simp [h]
    have hsr : seedRoot o acc = { acc with refs := acc.refs ++ [o.obj] } := by
      simp [seedRoot, hb]
    refine ⟨?_, ?_, ?_⟩
    · rw [hsr]
      exact ⟨fun _ => hp, fun _ => rfl⟩
    · rw [hsr]
      constructor
      · intro h
        exact absurd h hne
      · intro h
        exact absurd hp h
    · rw [hsr]
  · rcases not_or.mp hp with ⟨h1, h2⟩
    have h3 : o.selectSet.isNone = false := by
      cases hsel : o.selectSet
      · exact absurd hsel h1
      · rfl
    have h4 : isFalse o.skip = false := by
      cases hb2 : isFalse o.skip
      · rfl
      · exact absurd hb2 h2
    have hsr : seedRoot o acc = acc := by
      simp [seedRoot, h3, h4]
    refine ⟨?_, ?_, ?_⟩
    · rw [hsr]
      constructor
      · intro h
        exact absurd h.symm hne
      · intro h
        exact absurd h hp
    · rw [hsr]
      exact ⟨fun _ => hp, fun _ => rfl⟩
    · rw [hsr]

/-- Witness for C7 (amended): a concrete `skip = true` object spec with a
nil select set is seeded, and the same spec with a non-nil select set is
not. -/
theorem c7_amended_root_seeding_witness :
    (seedRoot ⟨rA, some true, none⟩ ⟨[], []⟩).refs = [rA] ∧
    (seedRoot ⟨rA, some true, some []⟩ ⟨[], []⟩).refs = [] :=
  ⟨(c7_amended_root_seeding ⟨rA, some true, none⟩ ⟨[], []⟩).1.mpr (Or.inl rfl),
   (c7_amended_root_seeding ⟨rA, some true, some []⟩ ⟨[], []⟩).2.1.mpr
     (by
       intro h
       rcases h with h | h
       · simp at h
       · exact absurd h (by decide))⟩

/-- C10: the seeding phase type-asserts every select-set entry to a
`*TraversalSpec`: a select-set list containing a plain `SelectionSpec`
entry always makes seeding panic, and a request whose first object spec
(with a present root) carries such an entry makes `RetrievePropertiesEx`
panic instead of returning a result or a fault. -/
theorem c10_selectset_type_assertion :
    (∀ (obj : Val) (l : List SelectionSpec) (acc : Seeded),
       (∃ n, SelectionSpec.selectionSpec n ∈ l) →
       seedSelectSets obj l acc = .error ()) ∧
    (∀ (reg : Registry) (thisRef : MoRef) (ps : List PropertySpec)
       (o : ObjectSpec) (os : List ObjectSpec) (flag : Option Bool)
       (v : Val) (n : String) (more : List SelectionSpec),
       regGet reg o.obj = some v → o.selectSet = some (.selectionSpec n :: more) →
       RetrievePropertiesEx reg ⟨thisRef, [⟨ps, o :: os, flag⟩]⟩ = .panic) := by
  have main : ∀ (obj : Val) (l : List SelectionSpec) (acc : Seeded),
      (∃ n, SelectionSpec.selectionSpec n ∈ l) →
      seedSelectSets obj l acc = .error () := by
    intro obj l
    induction l with
    | nil =>
      intro acc h
      rcases h with ⟨n, hn⟩
      simp at hn
    | cons ss rest ih =>
      intro acc h
      cases ss with
      | selectionSpec n => simp [seedSelectSets]
      | traversalSpec path sel =>
        have hrest : ∃ n, SelectionSpec.selectionSpec n ∈ rest := by
          rcases h with ⟨n, hn⟩
          rcases List.mem_cons.mp hn with h2 | h2
          · exact absurd h2 (by simp)
          · exact ⟨n, h2⟩
        simp only [seedSelectSets]
        cases hf : fieldValue obj path with
        | ok v => simp [ih _ hrest]
        | error e => cases e <;> simp [ih _ hrest]
  refine ⟨main, ?_⟩
  intro reg thisRef ps o os flag v n more hv hsel
  simp [RetrievePropertiesEx, pcCollect, seedSpecs, seedObjects, hv, hsel,
    main v (SelectionSpec.selectionSpec n :: more) (seedRoot o ⟨[], []⟩) ⟨n, by simp⟩]

/-- Witness for C10: a concrete request whose select set holds a plain
`SelectionSpec` makes the call panic. -/
theorem c10_selectset_type_assertion_witness :
    RetrievePropertiesEx soloReg plainSelectReq = .panic :=
  c10_selectset_type_assertion.2 soloReg ⟨"PropertyCollector", "pc"⟩ []
    ⟨rA, none, some [.selectionSpec "visitFolders"]⟩ [] none
    (folderObj rA []) "visitFolders" [] rfl rfl

/-- C9: the legacy `RetrieveProperties` adapter forwards the request's
`This` and `SpecSet` to `RetrievePropertiesEx` and adds no semantics:
whenever the current-version call faults, the legacy call returns the
same fault; whenever it returns a result, the legacy call returns
exactly that result's object list (and nothing else); panics propagate
unchanged, and every legacy result arises this way. -/
theorem c9_legacy_adapter (reg : Registry) (r : RetrievePropertiesRequest) :
    (∀ f, RetrievePropertiesEx reg ⟨r.thisRef, r.specSet⟩ = .fault f →
       RetrieveProperties reg r = .fault f) ∧
    (∀ res, RetrievePropertiesEx reg ⟨r.thisRef, r.specSet⟩ = .result res →
       RetrieveProperties reg r = .result res.objects) ∧
    (RetrievePropertiesEx reg ⟨r.thisRef, r.specSet⟩ = .panic →
       RetrieveProperties reg r = .panic) ∧
    (∀ objs, RetrieveProperties reg r = .result objs →
       ∃ res, RetrievePropertiesEx reg ⟨r.thisRef, r.specSet⟩ = .result res ∧
         res.objects = objs) := by
  refine ⟨?_, ?_, ?_, ?_⟩
  · intro f h
    simp [RetrieveProperties, h]
  · intro res h
    simp [RetrieveProperties, h]
  · intro h
    simp [RetrieveProperties, h]
  · intro objs h
    cases hx : RetrievePropertiesEx reg ⟨r.thisRef, r.specSet⟩ with
    | panic => simp [RetrieveProperties, hx] at h
    | fault f => simp [RetrieveProperties, hx] at h
    | result res =>
      simp [RetrieveProperties, hx] at h
      exact ⟨res, rfl, h⟩
    | fuelOut => simp [RetrieveProperties, hx] at h

/-- Witness for C9 at the concrete cyclic registry: the legacy call
returns exactly the object list of the current-version result. -/
theorem c9_legacy_adapter_witness :
    RetrieveProperties cycReg legacyReq = .result cycRes.objects :=
  (c9_legacy_adapter cycReg legacyReq).2.1 cycRes rfl

/-- C4 counterexample: with missing-object reporting enabled, a
traversal-discovered reference (`B`) absent from the registry is not
skipped silently — the visit step dereferences the missing object and
the call panics instead of returning the content of `A` alone. -/
theorem c4_counterexample :
    RetrievePropertiesEx danglingReg danglingReq = .panic ∧
    RetrievePropertiesEx danglingReg danglingReq ≠ .result ⟨[⟨rA, [], []⟩]⟩ := by
  refine ⟨rfl, ?_⟩
  intro hcontra
  rw [show RetrievePropertiesEx danglingReg danglingReq = .panic from rfl] at hcontra
  exact Outcome.noConfusion hcontra

/-- C4 (amended): only seed roots are checked against the registry;
when the visit loop pops a not-yet-collected reference that is absent
from the registry — in particular one discovered through traversal or
recursive expansion — it dereferences the missing object and panics,
for every report-missing flag value. -/
theorem c4_amended_absent_discovered_ref (reg : Registry)
    (propSets : List (List PropertySpec)) (recurse : List String) (fuel : Nat)
    (st : CollectState) (ref : MoRef) (rest : List MoRef)
    (h1 : ref ∉ st.collected) (h2 : regGet reg ref = none) :
    collectLoop reg propSets recurse (fuel + 1) st (ref :: rest) = some (.error ()) := by
  simp [collectLoop, h1, h2]

/-- Witness for C4 (amended): the dangling reference `B` popped from the
worklist panics the loop. -/
theorem c4_amended_absent_discovered_ref_witness :
    collectLoop danglingReg [] [] 1 ⟨[], []⟩ [rB] = some (.error ()) :=
  c4_amended_absent_discovered_ref danglingReg [] [] 0 ⟨[], []⟩ rB []
    (by simp) rfl

/-- A successful registry lookup names an actual binding. -/
theorem regGet_mem (reg : Registry) (ref : MoRef) (v : Val)
    (h : regGet reg ref = some v) : (ref, v) ∈ reg := by
  induction reg with
  | nil => simp [regGet] at h
  | cons kv rest ih =>
    rcases kv with ⟨k, w⟩
    by_cases hk : k = ref
    · subst hk
      simp only [regGet, if_pos rfl] at h
      obtain rfl : w = v := by injection h
      exact List.mem_cons_self _ _
    · simp only [regGet, if_neg hk] at h
      exact List.mem_cons_of_mem _ (ih h)

/-- Any member of a list is bounded by its max-fold. -/
theorem le_foldr_max (n : Nat) (l : List Nat) (h : n ∈ l) :
    n ≤ l.foldr Nat.max 0 := by
  induction l with
  | nil => simp at h
  | cons m rest ih =>
    rcases List.mem_cons.mp h with h1 | h1
    · subst h1
      exact Nat.le_max_left _ _
    · exact le_trans (ih h1) (Nat.le_max_right _ _)

/-- The references pushed by one successful visit are bounded by the
registry-wide step bound. -/
theorem visit_refs_le_stepBound (reg : Registry) (propSets : List (List PropertySpec))
    (recurse : List String) (ref : MoRef) (v : Val) (content : ObjectContent)
    (refs : List MoRef) (hget : regGet reg ref = some v)
    (hvisit : visitObject propSets recurse ref v = .ok (content, refs)) :
    refs.length ≤ stepBound reg propSets recurse := by
  have hmem : (ref, v) ∈ reg := regGet_mem _ _ _ hget
  have hcount : visitRefCount propSets recurse (ref, v) = refs.length := by
    simp [visitRefCount, hvisit]
  rw [← hcount]
  exact le_foldr_max _ _ (List.mem_map_of_mem _ hmem)

/-- Excluding one present, not-yet-excluded element of a duplicate-free
list shrinks the filtered length by exactly one. -/
theorem filter_notmem_cons (d : List MoRef) (c : List MoRef) (a : MoRef)
    (hnd : d.Nodup) (ha : a ∈ d) (hc : a ∉ c) :
    (d.filter (fun k => !decide (k ∈ c))).length =
      (d.filter (fun k => !decide (k ∈ a :: c))).length + 1 := by
  induction d with
  | nil => simp at ha
  | cons x rest ih =>
    have hx : x ∉ rest := (List.nodup_cons.mp hnd).1
    have hnd' : rest.Nodup := (List.nodup_cons.mp hnd).2
    rcases List.mem_cons.mp ha with h1 | h1
    · subst h1
      have heq : rest.filter (fun k => !decide (k ∈ c)) =
          rest.filter (fun k => !decide (k ∈ a :: c)) := by
        apply List.filter_congr
        intro k hk
        have hkx : k ≠ a := fun h => hx (h ▸ hk)
        simp [List.mem_cons, hkx]
      simp [List.filter_cons, hc, heq]
    · have hxa : x ≠ a := by
        intro h
        exact hx (h ▸ h1)
      by_cases hxc : x ∈ c
      · simp [List.filter_cons, hxc, ih hnd' h1]
      · simp [List.filter_cons, hxc, hxa, ih hnd' h1]

/-- Collecting a registry key that was not yet collected decrements the
uncollected count by exactly one. -/
theorem uncollected_decrement (reg : Registry) (collected : List MoRef) (ref : MoRef)
    (h1 : ref ∈ reg.map Prod.fst) (h2 : ref ∉ collected) :
    uncollected reg collected = uncollected reg (ref :: collected) + 1 := by
  unfold uncollected
  exact filter_notmem_cons _ _ _ (List.nodup_dedup _) (List.mem_dedup.mpr h1) h2

/-- Sufficiency of the fuel budget: with at least `fuelFor` fuel the
visit loop never runs out. This is the termination argument for the
source's recursion: every newly collected reference is a registry key,
so the uncollected count strictly decreases, and each visit pushes at
most `stepBound` references. -/
theorem collectLoop_no_fuelOut (reg : Registry) (propSets : List (List PropertySpec))
    (recurse : List String) :
    ∀ (fuel : Nat) (st : CollectState) (wl : List MoRef),
      fuelFor reg propSets recurse st.collected wl ≤ fuel →
      collectLoop reg propSets recurse fuel st wl ≠ none := by
  intro fuel
  induction fuel with
  | zero =>
    intro st wl h
    have hwl : wl = [] := by
      unfold fuelFor at h
      have : wl.length = 0 := by omega
      exact List.length_eq_zero.mp this
    subst hwl
    simp [collectLoop]
  | succ fuel ih =>
    intro st wl h
    cases wl with
    | nil => simp [collectLoop]
    | cons ref rest =>
      by_cases hmem : ref ∈ st.collected
      · have hrec : fuelFor reg propSets recurse st.collected rest ≤ fuel := by
          unfold fuelFor at h ⊢
          rw [List.length_cons] at h
          omega
        simp only [collectLoop, if_pos hmem]
        exact ih st rest hrec
      · cases hget : regGet reg ref with
        | none => simp [collectLoop, hmem, hget]
        | some obj =>
          cases hvisit : visitObject propSets recurse ref obj with
          | error e => simp [collectLoop, hmem, hget, hvisit]
          | ok pr =>
            rcases pr with ⟨content, refs⟩
            have hrefmem : ref ∈ reg.map Prod.fst := by
              have := regGet_mem reg ref obj hget
              exact List.mem_map_of_mem Prod.fst this
            have hdec := uncollected_decrement reg st.collected ref hrefmem hmem
            have hb := visit_refs_le_stepBound reg propSets recurse ref obj
              content refs hget hvisit
            have hrec : fuelFor reg propSets recurse (ref :: st.collected)
                (refs ++ rest) ≤ fuel := by
              unfold fuelFor at h ⊢
              rw [hdec, Nat.add_mul, Nat.one_mul] at h
              rw [List.length_append]
              rw [List.length_cons] at h
              omega
            simp only [collectLoop, if_neg hmem, hget, hvisit]
            exact ih ⟨st.objects ++ [content], ref :: st.collected⟩ (refs ++ rest) hrec

/-- `collectFields` never changes which object a content belongs to. -/
theorem collectFields_obj (recurse : List String) (rval : Val) :
    ∀ (ps : List String) (c : ObjectContent) (rs : List MoRef) (c' : ObjectContent),
      collectFields recurse rval ps c = .ok (rs, c') → c'.obj = c.obj := by
  intro ps
  induction ps with
  | nil =>
    intro c rs c' h
    simp only [collectFields, Except.ok.injEq, Prod.mk.injEq] at h
    rw [← h.2]
  | cons name rest ih =>
    intro c rs c' h
    simp only [collectFields] at h
    split at h
    · split at h
      · exact absurd h (by simp)
      · rename_i heq
        simp only [Except.ok.injEq, Prod.mk.injEq] at h
        rw [← h.2]
        exact ih { c with propSet := c.propSet ++ [⟨name, _⟩] } _ _ heq
    · exact ih c _ _ h
    · exact ih { c with missingSet := c.missingSet ++ [⟨name, .invalidProperty name⟩] } _ _ h
    · exact absurd h (by simp)

/-- `applyPropSpec` never changes which object a content belongs to. -/
theorem applyPropSpec_obj (refType : String) (rval : Val) (recurse : List String)
    (p : PropertySpec) (c : ObjectContent) (rs : List MoRef) (c' : ObjectContent)
    (h : applyPropSpec refType rval recurse p c = .ok (rs, c')) : c'.obj = c.obj := by
  unfold applyPropSpec at h
  split at h
  · exact absurd h (by simp)
  · simp only [Except.ok.injEq, Prod.mk.injEq] at h
    rw [← h.2]
  · split at h
    · split at h
      · exact absurd h (by simp)
      · simp only [Except.ok.injEq, Prod.mk.injEq] at h
        rw [← h.2]
    · exact collectFields_obj recurse rval p.pathSet c rs c' h

/-- The property-spec loop never changes which object a content belongs
to. -/
theorem applyPropSpecs_obj (refType : String) (rval : Val) (recurse : List String) :
    ∀ (ps : List PropertySpec) (c : ObjectContent) (rs : List MoRef) (c' : ObjectContent),
      applyPropSpecs refType rval recurse ps c = .ok (rs, c') → c'.obj = c.obj := by
  intro ps
  induction ps with
  | nil =>
    intro c rs c' h
    simp only [applyPropSpecs, Except.ok.injEq, Prod.mk.injEq] at h
    rw [← h.2]
  | cons p rest ih =>
    intro c rs c' h
    simp only [applyPropSpecs] at h
    split at h
    · exact absurd h (by simp)
    · rename_i pr1 heq1
      split at h
      · exact absurd h (by simp)
      · rename_i pr2 heq2
        simp only [Except.ok.injEq, Prod.mk.injEq] at h
        rw [← h.2]
        exact (ih _ _ _ heq2).trans (applyPropSpec_obj _ _ _ _ _ _ _ heq1)

/-- The filter-spec loop never changes which object a content belongs
to. -/
theorem applySpecs_obj (refType : String) (rval : Val) (recurse : List String) :
    ∀ (propSets : List (List PropertySpec)) (c : ObjectContent) (rs : List MoRef)
      (c' : ObjectContent),
      applySpecs refType rval recurse propSets c = .ok (rs, c') → c'.obj = c.obj := by
  intro propSets
  induction propSets with
  | nil =>
    intro c rs c' h
    simp only [applySpecs, Except.ok.injEq, Prod.mk.injEq] at h
    rw [← h.2]
  | cons ps rest ih =>
    intro c rs c' h
    simp only [applySpecs] at h
    split at h
    · exact absurd h (by simp)
    · rename_i pr1 heq1
      split at h
      · exact absurd h (by simp)
      · rename_i pr2 heq2
        simp only [Except.ok.injEq, Prod.mk.injEq] at h
        rw [← h.2]
        exact (ih _ _ _ heq2).trans (applyPropSpecs_obj _ _ _ _ _ _ _ heq1)

/-- A successful visit emits a content whose `obj` field is the visited
reference. -/
theorem visitObject_obj (propSets : List (List PropertySpec)) (recurse : List String)
    (ref : MoRef) (obj : Val) (content : ObjectContent) (refs : List MoRef)
    (h : visitObject propSets recurse ref obj = .ok (content, refs)) :
    content.obj = ref := by
  unfold visitObject at h
  split at h
  · split at h
    · exact absurd h (by simp)
    · split at h
      · exact absurd h (by simp)
      · rename_i pr heq
        simp only [Except.ok.injEq, Prod.mk.injEq] at h
        rw [← h.1]
        exact applySpecs_obj _ _ _ _ _ _ _ heq
  · exact absurd h (by simp)

/-- The visit loop preserves the invariant that emitted contents have
pairwise-distinct object references: each newly emitted content carries
a reference that was not yet collected, while every previously emitted
content's reference already is. -/
theorem collectLoop_nodup (reg : Registry) (propSets : List (List PropertySpec))
    (recurse : List String) :
    ∀ (fuel : Nat) (st : CollectState) (wl : List MoRef) (st' : CollectState),
      (st.objects.map ObjectContent.obj).Nodup →
      (∀ c ∈ st.objects, c.obj ∈ st.collected) →
      collectLoop reg propSets recurse fuel st wl = some (.ok st') →
      (st'.objects.map ObjectContent.obj).Nodup := by
  intro fuel
  induction fuel with
  | zero =>
    intro st wl st' hnd hsub h
    cases wl with
    | nil =>
      simp only [collectLoop, Option.some.injEq, Except.ok.injEq] at h
      rw [← h]
      exact hnd
    | cons a b => simp [collectLoop] at h
  | succ fuel ih =>
    intro st wl st' hnd hsub h
    cases wl with
    | nil =>
      simp only [collectLoop, Option.some.injEq, Except.ok.injEq] at h
      rw [← h]
      exact hnd
    | cons ref rest =>
      by_cases hmem : ref ∈ st.collected
      · simp only [collectLoop, if_pos hmem] at h
        exact ih st rest st' hnd hsub h
      · cases hget : regGet reg ref with
        | none => simp [collectLoop, hmem, hget] at h
        | some obj =>
          cases hvisit : visitObject propSets recurse ref obj with
          | error e => simp [collectLoop, hmem, hget, hvisit] at h
          | ok pr =>
            rcases pr with ⟨content, refs⟩
            simp only [collectLoop, if_neg hmem, hget, hvisit] at h
            have hobj : content.obj = ref :=
              visitObject_obj propSets recurse ref obj content refs hvisit
            have hnotin : content.obj ∉ st.objects.map ObjectContent.obj := by
              intro hin
              rcases List.mem_map.mp hin with ⟨c0, hc0, hc0obj⟩
              exact hmem (hobj ▸ hc0obj ▸ hsub c0 hc0)
            have hnd' : ((st.objects ++ [content]).map ObjectContent.obj).Nodup := by
              rw [List.map_append]
              apply List.Nodup.append hnd (List.nodup_singleton _)
              intro x hx hx2
              rcases List.mem_singleton.mp hx2 with rfl
              exact hnotin hx
            have hsub' : ∀ c ∈ st.objects ++ [content], c.obj ∈ ref :: st.collected := by
              intro c0 hc0
              rcases List.mem_append.mp hc0 with h1 | h1
              · exact List.mem_cons_of_mem _ (hsub c0 h1)
              · rcases List.mem_singleton.mp h1 with rfl
                rw [hobj]
                exact List.mem_cons_self _ _
            exact ih ⟨st.objects ++ [content], ref :: st.collected⟩ (refs ++ rest) st'
              hnd' hsub' h

/-- C1: for every registry and every request — cyclic object graphs
reachable through recursive traversal specs included — the retrieval
never exhausts its (sufficient) fuel, i.e. the source's recursion
terminates, and whenever a result is returned no managed object
reference appears more than once in its `Objects` list. -/
theorem c1_cycle_safe_termination (reg : Registry) (r : RetrievePropertiesExRequest) :
    RetrievePropertiesEx reg r ≠ .fuelOut ∧
    (∀ res, RetrievePropertiesEx reg r = .result res →
       (res.objects.map ObjectContent.obj).Nodup) := by
  unfold RetrievePropertiesEx pcCollect
  cases hs : seedSpecs reg r.specSet ⟨[], []⟩ with
  | error e => simp
  | ok s =>
    cases s with
    | inl f => simp
    | inr acc =>
      have hfuel := collectLoop_no_fuelOut reg (r.specSet.map PropertyFilterSpec.propSet)
        acc.recurse
        (fuelFor reg (r.specSet.map PropertyFilterSpec.propSet) acc.recurse [] acc.refs)
        ⟨[], []⟩ acc.refs (le_refl _)
      cases hc : collectLoop reg (r.specSet.map PropertyFilterSpec.propSet) acc.recurse
          (fuelFor reg (r.specSet.map PropertyFilterSpec.propSet) acc.recurse [] acc.refs)
          ⟨[], []⟩ acc.refs with
      | none => exact absurd hc hfuel
      | some res0 =>
        cases res0 with
        | error e => simp [hc]
        | ok st =>
          simp only [hc]
          refine ⟨by simp, ?_⟩
          intro res hres
          simp only [Outcome.result.injEq] at hres
          rw [← hres]
          exact collectLoop_nodup reg (r.specSet.map PropertyFilterSpec.propSet)
            acc.recurse
            (fuelFor reg (r.specSet.map PropertyFilterSpec.propSet) acc.recurse [] acc.refs)
            ⟨[], []⟩ acc.refs st (by simp) (by simp) hc

/-- Witness for C1: the cyclic registry `A → [B, C]`, `B → [A]` with a
recursive traversal yields exactly the three contents `A`, `B`, `C`,
each reference appearing once. -/
theorem c1_cycle_safe_termination_witness :
    RetrievePropertiesEx cycReg cycReq = .result cycRes ∧
    (cycRes.objects.map ObjectContent.obj).Nodup :=
  ⟨rfl, (c1_cycle_safe_termination cycReg cycReq).2 cycRes rfl⟩
